import Mathlib

/-!
Verification development for the jirgram Telegram client (src/main.py).

The file embeds the client's data model and operations shallowly in Lean:
Python dict-shaped payloads become an inductive `PyVal` type, the handlers
of `JirgramClient` become pure state-passing functions, and the components
that live in the (absent) `modules/` package — `MessageDatabase`,
`GhostModeHandler`, `AntiDeleteHandler`, `MessageHistoryHandler` — are
modelled from the design document, as marked on each definition.
-/

namespace Jirgram

/-! ## Python-value model for dict-shaped payloads -/

/-- Model of the Python values that appear in TDLib update payloads:
strings, integers, None, and dicts with string keys. -/
inductive PyVal where
  | pyStr : String → PyVal
  | pyInt : Int → PyVal
  | pyNone : PyVal
  | pyDict : List (String × PyVal) → PyVal

/-- Model of Python `dict.get(k)`: the value at the first matching key, or
`none` when the key is absent. -/
def dictGet (m : List (String × PyVal)) (k : String) : Option PyVal :=
  (m.find? (fun kv => kv.fst = k)).map (fun kv => kv.snd)

/-- Model of the Python comparison `v == s` between a payload value and a
string literal: true exactly when `v` is that string. -/
def isStrVal (v : Option PyVal) (s : String) : Bool :=
  match v with
  | some (.pyStr t) => t = s
  | _ => false

/-- Model of Python `str(v)` as used inside an f-string, for the payload
values we model. -/
def pyToStr : PyVal → String
  | .pyStr s => s
  | .pyInt n => toString n
  | .pyNone => "None"
  | .pyDict _ => "\x7b...\x7d"

/-- The runtime error raised when `.get` is called on a non-dict value. -/
inductive PyError where
  | attributeError : PyError
  deriving DecidableEq

/-- Shallow embedding of `JirgramClient._extract_text` (src/main.py:124-131).
`content = message.get('content', {})`; when `content.get('@type') ==
'messageText'` it returns `content.get('text', {}).get('text', '')`,
otherwise the f-string `"[" + content.get('@type', 'Unknown') + "]"`.
Calling `.get` on a non-dict value raises `AttributeError`, which the
embedding returns as `.error`. -/
def extract_text (message : List (String × PyVal)) : Except PyError PyVal :=
  let content := (dictGet message "content").getD (.pyDict [])
  match content with
  | .pyDict c =>
    if isStrVal (dictGet c "@type") "messageText" then
      match (dictGet c "text").getD (.pyDict []) with
      | .pyDict t => .ok ((dictGet t "text").getD (.pyStr ""))
      | _ => .error .attributeError
    else
      .ok (.pyStr ("[" ++ pyToStr ((dictGet c "@type").getD (.pyStr "Unknown")) ++ "]"))
  | _ => .error .attributeError

/-! ## Outbound send (ghost-mode silent flag) -/

/-- The request dictionary that `send_message` passes to
`tg.call_method('sendMessage', ...)`, restricted to the fields the method
fills in. -/
structure SendMessageCall where
  chat_id : Int
  text : String
  disable_notification : Bool
  deriving DecidableEq

/-- Shallow embedding of `JirgramClient.send_message` (src/main.py:133-147):
the transport request carries `disable_notification = silent or
self.ghost_mode_enabled`. -/
def send_message (ghost_mode_enabled : Bool) (chat_id : Int) (text : String)
    (silent : Bool) : SendMessageCall :=
  { chat_id := chat_id, text := text,
    disable_notification := silent || ghost_mode_enabled }

/-! ## Ghost-mode filter -/

/-- The three suppression toggles handed to `GhostModeHandler` in
`JirgramClient.__init__` (src/main.py:60-68). -/
structure GhostFlags where
  hide_online : Bool
  hide_typing : Bool
  hide_read : Bool
  deriving DecidableEq

/-- The three presence-affecting event/action kinds the filter acts on. -/
inductive PresenceKind where
  | online : PresenceKind
  | typing : PresenceKind
  | read : PresenceKind
  deriving DecidableEq

/-- Modelled from the spec: `GhostModeHandler` (modules/ghost_mode.py is not
in src). Per the design document's ghost-mode section, the filter is a pure
per-event decision function of the event kind and the current flags,
independently toggled along the three axes hide-online, hide-typing,
hide-read. -/
def suppresses (f : GhostFlags) : PresenceKind → Bool
  | .online => f.hide_online
  | .typing => f.hide_typing
  | .read => f.hide_read

/-! ## Durable record model (Store namespaces) -/

/-- Message content as a tagged variant: text, media reference, other typed
payload with an opaque kind tag, or the "unavailable" marker used when no
content could be captured. -/
inductive Content where
  | text : String → Content
  | media : String → Content
  | other : String → Content
  | unavailable : Content
  deriving DecidableEq

/-- Message Record: identity `(chat_id, message_id)` plus sender, timestamp
and content. -/
structure MessageRecord where
  chat_id : Int
  message_id : Int
  sender_id : Int
  timestamp : Int
  content : Content
  deriving DecidableEq

/-- Revision Record: one content snapshot of a message, identified by a
sequence number (`0` is the original). -/
structure RevisionRecord where
  chat_id : Int
  message_id : Int
  revision_seq : Nat
  content : Content
  edited_at : Int
  deriving DecidableEq

/-- Deletion Record: tombstone for a deleted message, carrying the last
known content and the batch that deleted it. -/
structure DeletionRecord where
  chat_id : Int
  message_id : Int
  deleted_at : Int
  last_known_content : Content
  batch_id : Nat
  deriving DecidableEq

/-- A record in any of the Store's three namespaces. -/
inductive StoredRecord where
  | msg : MessageRecord → StoredRecord
  | rev : RevisionRecord → StoredRecord
  | del : DeletionRecord → StoredRecord
  deriving DecidableEq

/-! ## Serialization and encryption at rest -/

/-- Serialize a string to its character codes. -/
def natsOfStr (s : String) : List Nat := s.data.map Char.toNat

/-- Rebuild a string from character codes. -/
def strOfNats (l : List Nat) : String := String.mk (l.map Char.ofNat)

/-- Serialize an integer as a sign tag and a magnitude. -/
def intSer (n : Int) : List Nat := if 0 ≤ n then [0, n.toNat] else [1, (-n).toNat]

/-- Decode a sign tag and magnitude back to an integer. -/
def intDe (tag v : Nat) : Option Int :=
  match tag with
  | 0 => some (v : Int)
  | 1 => some (-(v : Int))
  | _ => none

/-- Serialize content as a tag byte followed by the payload. -/
def encodeContent : Content → List Nat
  | .text s => 0 :: natsOfStr s
  | .media s => 1 :: natsOfStr s
  | .other s => 2 :: natsOfStr s
  | .unavailable => [3]

/-- Decode serialized content. -/
def decodeContent : List Nat → Option Content
  | 0 :: rest => some (.text (strOfNats rest))
  | 1 :: rest => some (.media (strOfNats rest))
  | 2 :: rest => some (.other (strOfNats rest))
  | [3] => some .unavailable
  | _ => none

/-- Serialize a stored record: a namespace tag, the fixed-width header
fields, then the content payload. -/
def encodeRecord : StoredRecord → List Nat
  | .msg r => 0 :: (intSer r.chat_id ++ intSer r.message_id ++ intSer r.sender_id ++
      intSer r.timestamp ++ encodeContent r.content)
  | .rev r => 1 :: (intSer r.chat_id ++ intSer r.message_id ++ [r.revision_seq] ++
      intSer r.edited_at ++ encodeContent r.content)
  | .del r => 2 :: (intSer r.chat_id ++ intSer r.message_id ++ intSer r.deleted_at ++
      [r.batch_id] ++ encodeContent r.last_known_content)

/-- Decode a serialized stored record; `none` models an `IntegrityError`
(corrupt or tampered data). -/
def decodeRecord : List Nat → Option StoredRecord
  | 0 :: s1 :: v1 :: s2 :: v2 :: s3 :: v3 :: s4 :: v4 :: rest => do
      let c ← intDe s1 v1
      let m ← intDe s2 v2
      let sd ← intDe s3 v3
      let ts ← intDe s4 v4
      let ct ← decodeContent rest
      pure (.msg ⟨c, m, sd, ts, ct⟩)
  | 1 :: s1 :: v1 :: s2 :: v2 :: sq :: s3 :: v3 :: rest => do
      let c ← intDe s1 v1
      let m ← intDe s2 v2
      let ea ← intDe s3 v3
      let ct ← decodeContent rest
      pure (.rev ⟨c, m, sq, ct, ea⟩)
  | 2 :: s1 :: v1 :: s2 :: v2 :: s3 :: v3 :: bt :: rest => do
      let c ← intDe s1 v1
      let m ← intDe s2 v2
      let da ← intDe s3 v3
      let ct ← decodeContent rest
      pure (.del ⟨c, m, da, ct, bt⟩)
  | _ => none

/-- Modelled from the spec: the Store's encryption key, derived from the
configured passphrase (`config.ENCRYPTION_KEY`). -/
def keyOfPassphrase (p : String) : List Nat := natsOfStr p

/-- Keystream value at position `i` for a repeating key. -/
def keyAt (key : List Nat) (i : Nat) : Nat := key.getD (i % key.length) 0

/-- Encrypt a serialized record from keystream position `i` onward. -/
def encryptFrom (key : List Nat) (i : Nat) : List Nat → List Nat
  | [] => []
  | b :: bs => (b + keyAt key i) :: encryptFrom key (i + 1) bs

/-- Decrypt a ciphertext from keystream position `i` onward. -/
def decryptFrom (key : List Nat) (i : Nat) : List Nat → List Nat
  | [] => []
  | b :: bs => (b - keyAt key i) :: decryptFrom key (i + 1) bs

/-- Modelled from the spec: all Store writes are encrypted before
persistence using a key derived from a configured passphrase. -/
def encrypt (key : List Nat) (p : List Nat) : List Nat := encryptFrom key 0 p

/-- Modelled from the spec: Store reads transparently decrypt. -/
def decrypt (key : List Nat) (c : List Nat) : List Nat := decryptFrom key 0 c

/-! ## Store -/

/-- Error raised when the storage medium cannot be written. -/
inductive StorageErr where
  | unavailable : StorageErr
  deriving DecidableEq

/-- Modelled from the spec: `MessageDatabase` (modules/database.py is not in
src). Durable encrypted persistence, logically partitioned into three
namespaces (messages, revisions, deletions), each holding ciphertexts keyed
by record identity. `faults` is the fault-injection set of identities whose
writes currently fail with `StorageUnavailable`, modelling the spec's
per-identity Store write failures. -/
structure Store where
  key : List Nat
  msgTable : List ((Int × Int) × List Nat)
  revTable : List ((Int × Int) × List Nat)
  delTable : List ((Int × Int) × List Nat)
  faults : List (Int × Int)
  deriving DecidableEq

/-- Modelled from the spec: `put_message` writes the encrypted record under
its identity; a write failure degrades protection for that message but does
not block ingestion, so it leaves the Store unchanged. -/
def Store.put_message (s : Store) (r : MessageRecord) : Store :=
  if (r.chat_id, r.message_id) ∈ s.faults then s
  else { s with msgTable :=
    ((r.chat_id, r.message_id), encrypt s.key (encodeRecord (.msg r))) :: s.msgTable }

/-- Modelled from the spec: `get_message` decrypts and decodes the newest
record stored under the identity; corrupt records read as `NotFound`. -/
def Store.get_message (s : Store) (chat mid : Int) : Option MessageRecord :=
  match (s.msgTable.find? (fun e => e.fst = (chat, mid))).map
      (fun e => decodeRecord (decrypt s.key e.snd)) with
  | some (some (.msg r)) => some r
  | _ => none

/-- Modelled from the spec: `put_revision` appends the encrypted revision;
a failed write is logged and dropped (degrade gracefully). -/
def Store.put_revision (s : Store) (r : RevisionRecord) : Store :=
  if (r.chat_id, r.message_id) ∈ s.faults then s
  else { s with revTable :=
    s.revTable ++ [((r.chat_id, r.message_id), encrypt s.key (encodeRecord (.rev r)))] }

/-- Modelled from the spec: `list_revisions` returns the revisions stored
for an identity in append (revision_seq) order, skipping records that fail
decryption rather than aborting the query. -/
def Store.list_revisions (s : Store) (chat mid : Int) : List RevisionRecord :=
  (s.revTable.filter (fun e => e.fst = (chat, mid))).filterMap (fun e =>
    match decodeRecord (decrypt s.key e.snd) with
    | some (.rev r) => some r
    | _ => none)

/-- Modelled from the spec: `put_deletion` persists the encrypted deletion
record, failing with `StorageUnavailable` for a faulted identity. -/
def Store.put_deletion (s : Store) (r : DeletionRecord) : Except StorageErr Store :=
  if (r.chat_id, r.message_id) ∈ s.faults then .error .unavailable
  else .ok { s with delTable :=
    s.delTable ++ [((r.chat_id, r.message_id), encrypt s.key (encodeRecord (.del r)))] }

/-- Modelled from the spec: `get_deletion` looks up the deletion record for
one identity (used to enforce at-most-once tombstoning). -/
def Store.get_deletion (s : Store) (chat mid : Int) : Option DeletionRecord :=
  match (s.delTable.find? (fun e => e.fst = (chat, mid))).map
      (fun e => decodeRecord (decrypt s.key e.snd)) with
  | some (some (.del r)) => some r
  | _ => none

/-- Modelled from the spec: `list_deletions` returns the deletion records of
one chat in capture (deleted_at) order, skipping records that fail
decryption rather than aborting the query. -/
def Store.list_deletions (s : Store) (chat : Int) : List DeletionRecord :=
  (s.delTable.filter (fun e => e.fst.fst = chat)).filterMap (fun e =>
    match decodeRecord (decrypt s.key e.snd) with
    | some (.del r) => some r
    | _ => none)

/-! ## Client state and event handlers -/

/-- Events of interest delivered by the transport, as the closed
tagged-variant type the design document prescribes at the Dispatcher
boundary. -/
inductive Update where
  | newMessage : MessageRecord → Update
  | otherUpdate : Update

/-- State of a `JirgramClient` instance: the feature flags read from config
in `__init__` (src/main.py:60-64), the Capture Buffer and Store behind the
anti-delete and history handlers, the remote service's own view of message
content (used for edit-history backfill over the transport), a local
capture clock for `deleted_at`, and the next batch identifier. -/
structure ClientState where
  ghost_mode_enabled : Bool
  hide_online : Bool
  hide_typing : Bool
  hide_read : Bool
  save_deleted : Bool
  buffer_cap : Nat
  buffer : List ((Int × Int) × MessageRecord)
  store : Store
  server : List ((Int × Int) × Content)
  now : Int
  next_batch : Nat
  deriving DecidableEq

/-- Modelled from the spec: content lookup for a deletion or backfill —
Capture Buffer first, falling back to Store. -/
def lookup_content (buffer : List ((Int × Int) × MessageRecord)) (s : Store)
    (chat mid : Int) : Option Content :=
  match buffer.find? (fun e => e.fst = (chat, mid)) with
  | some e => some e.snd.content
  | none => (s.get_message chat mid).map (fun r => r.content)

/-- Modelled from the spec: origin content for a lazily backfilled revision
0 — Capture Buffer/Store snapshot, then a best-effort fetch of the current
server-side content over the transport, else the "unavailable" marker. -/
def backfill_origin (buffer : List ((Int × Int) × MessageRecord)) (s : Store)
    (server : List ((Int × Int) × Content)) (chat mid : Int) : Content :=
  ((lookup_content buffer s chat mid).orElse (fun _ =>
    (server.find? (fun e => e.fst = (chat, mid))).map (fun e => e.snd))).getD
    .unavailable

/-- Modelled from the spec: `AntiDeleteHandler.save_message`
(modules/anti_delete.py is not in src) — write the new message to the
Capture Buffer (least-recently-inserted eviction under the size bound;
entries are written through to Store on observation, so eviction needs no
further flush) and to the Store. -/
def save_message (st : ClientState) (r : MessageRecord) : ClientState :=
  { st with
    buffer := (((r.chat_id, r.message_id), r) :: st.buffer).take st.buffer_cap,
    store := st.store.put_message r }

/-- Shallow embedding of `JirgramClient.handle_new_message`
(src/main.py:101-113): on an `updateNewMessage`, save the message for
anti-delete when `save_deleted` is enabled (the remaining body only logs). -/
def handle_new_message (st : ClientState) (u : Update) : ClientState :=
  match u with
  | .newMessage m => if st.save_deleted then save_message st m else st
  | .otherUpdate => st

/-- Modelled from the spec: tombstoning of one identity inside a deletion
batch — skip when a Deletion Record already exists (created at most once
per identity), otherwise look up the last known content (buffer, then
Store, then "content-unknown") and persist a Deletion Record; a
`StorageUnavailable` failure is reported for that identity alone. -/
def tombstone_one (st : ClientState) (chat mid : Int) : ClientState × Option Int :=
  match st.store.get_deletion chat mid with
  | some _ => (st, none)
  | none =>
    let d : DeletionRecord :=
      { chat_id := chat, message_id := mid, deleted_at := st.now,
        last_known_content :=
          (lookup_content st.buffer st.store chat mid).getD .unavailable,
        batch_id := st.next_batch }
    match st.store.put_deletion d with
    | .ok s => ({ st with store := s }, none)
    | .error _ => (st, some mid)

/-- Modelled from the spec: `AntiDeleteHandler.handle_deletion` over one
batch — each identity is processed independently and failures are
collected rather than aborting the rest of the batch. -/
def process_batch (st : ClientState) (chat : Int) : List Int → ClientState × List Int
  | [] => (st, [])
  | mid :: mids =>
    let step := tombstone_one st chat mid
    let rest := process_batch step.fst chat mids
    (rest.fst, match step.snd with
      | some m => m :: rest.snd
      | none => rest.snd)

/-- Shallow embedding of `JirgramClient.handle_delete_message`
(src/main.py:115-118): forward the deletion batch to the anti-delete
handler only when `save_deleted` is enabled; the batch shares one capture
time and batch id, and the per-identity failures are the reported result. -/
def handle_delete_message (st : ClientState) (chat : Int) (mids : List Int) :
    ClientState × List Int :=
  if st.save_deleted then
    let out := process_batch st chat mids
    ({ out.fst with now := out.fst.now + 1, next_batch := out.fst.next_batch + 1 },
      out.snd)
  else (st, [])

/-- Largest revision_seq among the listed revisions (0 when none exist). -/
def maxSeq (rs : List RevisionRecord) : Nat :=
  (rs.map (fun r => r.revision_seq)).foldr max 0

/-- Shallow embedding of `JirgramClient.handle_edit_message`
(src/main.py:120-122) composed with the spec-modelled
`MessageHistoryHandler.handle_edit` (modules/message_history.py is not in
src): if no revisions exist yet, first synthesize revision 0 from the
buffer/Store snapshot (or transport backfill, else "unavailable"); append
revision_seq = max existing + 1 with the new content; then update the
canonical Message Record's content — the one sanctioned overwrite path. -/
def edit_store (buffer : List ((Int × Int) × MessageRecord))
    (server : List ((Int × Int) × Content)) (s : Store) (chat mid : Int)
    (new_content : Content) (edited_at : Int) : Store :=
  let rev0 : RevisionRecord :=
    { chat_id := chat, message_id := mid, revision_seq := 0,
      content := backfill_origin buffer s server chat mid, edited_at := edited_at }
  let s1 := if (s.list_revisions chat mid).isEmpty then s.put_revision rev0 else s
  let newRev : RevisionRecord :=
    { chat_id := chat, message_id := mid,
      revision_seq := maxSeq (s1.list_revisions chat mid) + 1,
      content := new_content, edited_at := edited_at }
  let s2 := s1.put_revision newRev
  match s2.get_message chat mid with
  | some m =>
    let m2 : MessageRecord := { m with content := new_content }
    s2.put_message m2
  | none => s2

/-- The client-state wrapper for an edit event: only the Store changes. -/
def handle_edit_message (st : ClientState) (chat mid : Int) (new_content : Content)
    (edited_at : Int) : ClientState :=
  { st with
    store := edit_store st.buffer st.server st.store chat mid new_content edited_at }

/-! ## Query operations -/

/-- Typed outcome of a query that can fail without crashing. -/
inductive QueryErr where
  | notFound : QueryErr
  | unavailable : QueryErr
  deriving DecidableEq

/-- Shallow embedding of `JirgramClient.get_deleted_messages`
(src/main.py:149-151): all deletion records captured for a chat. -/
def get_deleted_messages (st : ClientState) (chat : Int) : List DeletionRecord :=
  st.store.list_deletions chat

/-- Shallow embedding of `JirgramClient.get_message_history`
(src/main.py:153-155): the edit history of one message, or the typed
`NotFound` outcome when the identity has no revisions. -/
def get_message_history (st : ClientState) (chat mid : Int) :
    Except QueryErr (List RevisionRecord) :=
  let revs := st.store.list_revisions chat mid
  if revs.isEmpty then .error .notFound else .ok revs

/-! ## Dispatcher lane model -/

/-- An event tagged with the message identity it concerns. -/
structure Event where
  ident : Int × Int
  kind : Nat
  payload : Content

/-- Modelled from the spec: the per-identity lane — the subsequence of the
arrival stream concerning one identity, in arrival order. -/
def laneOf (events : List Event) (id : Int × Int) : List Event :=
  events.filter (fun e => e.ident = id)

/-- State of the Dispatcher's worker model: the events processed so far (in
processing order) and the unprocessed remainder of each identity's lane. -/
structure DispatchState where
  processed : List Event
  remaining : (Int × Int) → List Event

/-- Modelled from the spec: the Dispatcher routes all events for a given
message identity through a single ordered queue/lane; initially every lane
holds its full arrival subsequence and nothing is processed. -/
def initDispatch (events : List Event) : DispatchState :=
  { processed := [], remaining := laneOf events }

/-- Modelled from the spec: one worker step — some identity's lane is
chosen (cross-identity choice is arbitrary, modelling parallel workers) and
the head of that lane, if any, is processed. -/
def dispatchStep (s : DispatchState) (id : Int × Int) : DispatchState :=
  match s.remaining id with
  | [] => s
  | e :: rest =>
    { processed := s.processed ++ [e],
      remaining := fun j => if j = id then rest else s.remaining j }

/-- Run the Dispatcher under an arbitrary schedule of lane choices. -/
def runSched (s : DispatchState) : List (Int × Int) → DispatchState
  | [] => s
  | id :: ids => runSched (dispatchStep s id) ids

/-! ## Sample fixtures for evaluating the model at concrete inputs -/

/-- An empty Store with a key derived from a sample passphrase. -/
def sampleStore : Store :=
  { key := keyOfPassphrase "secure_password", msgTable := [], revTable := [],
    delTable := [], faults := [] }

/-- An empty Store whose medium fails for identity `(7, 102)`. -/
def faultyStore : Store :=
  { key := keyOfPassphrase "secure_password", msgTable := [], revTable := [],
    delTable := [], faults := [(7, 102)] }

/-- A freshly initialized client with the default config flags
(src/main.py:60-64 defaults everything to True). -/
def sampleState : ClientState :=
  { ghost_mode_enabled := true, hide_online := true, hide_typing := true,
    hide_read := true, save_deleted := true, buffer_cap := 100, buffer := [],
    store := sampleStore, server := [], now := 0, next_batch := 0 }

/-- The sample client over the faulty Store. -/
def faultyState : ClientState :=
  { sampleState with store := faultyStore }

/-- The sample client with anti-delete disabled. -/
def noSaveState : ClientState :=
  { sampleState with save_deleted := false }

/-- A sample message record in chat 7. -/
def sampleMsg : MessageRecord :=
  { chat_id := 7, message_id := 101, sender_id := 3, timestamp := 1000,
    content := .text "hello" }

/-- Fold a sequence of edit events for one identity over the client, in
delivery order. -/
def foldEdits (st : ClientState) (chat mid : Int)
    (es : List (Content × Int)) : ClientState :=
  es.foldl (fun s e => handle_edit_message s chat mid e.fst e.snd) st

/-- The revision records appended for a run of edit events, starting at a
given revision_seq. -/
def editRevs (chat mid : Int) : Nat → List (Content × Int) → List RevisionRecord
  | _, [] => []
  | k, (c, t) :: es =>
    { chat_id := chat, message_id := mid, revision_seq := k, content := c,
      edited_at := t } :: editRevs chat mid (k + 1) es

/-! ## Round-trip lemmas for serialization and encryption -/

theorem strOfNats_natsOfStr (s : String) : strOfNats (natsOfStr s) = s := by
  cases s with
  | mk data =>
    simp only [strOfNats, natsOfStr, List.map_map]
    congr 1
    induction data with
    | nil => rfl
    | cons c cs ih => simp [Function.comp, Char.ofNat_toNat, ih]

theorem decryptFrom_encryptFrom (key : List Nat) (p : List Nat) :
    ∀ i, decryptFrom key i (encryptFrom key i p) = p := by
  induction p with
  | nil => intro i; rfl
  | cons b bs ih =>
    intro i
    simp [encryptFrom, decryptFrom, Nat.add_sub_cancel, ih (i + 1)]

theorem decrypt_encrypt (key : List Nat) (p : List Nat) :
    decrypt key (encrypt key p) = p :=
  decryptFrom_encryptFrom key p 0

theorem intSer_shape (n : Int) :
    ∃ t v, intSer n = [t, v] ∧ intDe t v = some n := by
  by_cases h : 0 ≤ n
  · exact ⟨0, n.toNat, by simp [intSer, h], by simp [intDe, Int.toNat_of_nonneg h]⟩
  · refine ⟨1, (-n).toNat, by simp [intSer, h], ?_⟩
    have h' : 0 ≤ -n := by omega
    simp [intDe, Int.toNat_of_nonneg h']

theorem decodeContent_encodeContent (c : Content) :
    decodeContent (encodeContent c) = some c := by
  cases c <;> simp [encodeContent, decodeContent, strOfNats_natsOfStr]

theorem decodeRecord_encodeRecord (r : StoredRecord) :
    decodeRecord (encodeRecord r) = some r := by
  cases r with
  | msg m =>
    obtain ⟨t1, v1, he1, hd1⟩ := intSer_shape m.chat_id
    obtain ⟨t2, v2, he2, hd2⟩ := intSer_shape m.message_id
    obtain ⟨t3, v3, he3, hd3⟩ := intSer_shape m.sender_id
    obtain ⟨t4, v4, he4, hd4⟩ := intSer_shape m.timestamp
    simp [encodeRecord, he1, he2, he3, he4, decodeRecord, hd1, hd2, hd3, hd4,
      decodeContent_encodeContent]
  | rev v =>
    obtain ⟨t1, v1, he1, hd1⟩ := intSer_shape v.chat_id
    obtain ⟨t2, v2, he2, hd2⟩ := intSer_shape v.message_id
    obtain ⟨t3, v3, he3, hd3⟩ := intSer_shape v.edited_at
    simp [encodeRecord, he1, he2, he3, decodeRecord, hd1, hd2, hd3,
      decodeContent_encodeContent]
  | del d =>
    obtain ⟨t1, v1, he1, hd1⟩ := intSer_shape d.chat_id
    obtain ⟨t2, v2, he2, hd2⟩ := intSer_shape d.message_id
    obtain ⟨t3, v3, he3, hd3⟩ := intSer_shape d.deleted_at
    simp [encodeRecord, he1, he2, he3, decodeRecord, hd1, hd2, hd3,
      decodeContent_encodeContent]

theorem decode_decrypt_encrypt_encode (key : List Nat) (r : StoredRecord) :
    decodeRecord (decrypt key (encrypt key (encodeRecord r))) = some r := by
  rw [decrypt_encrypt, decodeRecord_encodeRecord]

/-! ## Store lemmas -/

theorem put_message_revTable (s : Store) (r : MessageRecord) :
    (s.put_message r).revTable = s.revTable := by
  unfold Store.put_message; split <;> rfl

theorem put_message_delTable (s : Store) (r : MessageRecord) :
    (s.put_message r).delTable = s.delTable := by
  unfold Store.put_message; split <;> rfl

theorem put_message_key (s : Store) (r : MessageRecord) :
    (s.put_message r).key = s.key := by
  unfold Store.put_message; split <;> rfl

theorem put_message_faults (s : Store) (r : MessageRecord) :
    (s.put_message r).faults = s.faults := by
  unfold Store.put_message; split <;> rfl

theorem put_revision_msgTable (s : Store) (r : RevisionRecord) :
    (s.put_revision r).msgTable = s.msgTable := by
  unfold Store.put_revision; split <;> rfl

theorem put_revision_delTable (s : Store) (r : RevisionRecord) :
    (s.put_revision r).delTable = s.delTable := by
  unfold Store.put_revision; split <;> rfl

theorem put_revision_key (s : Store) (r : RevisionRecord) :
    (s.put_revision r).key = s.key := by
  unfold Store.put_revision; split <;> rfl

theorem put_revision_faults (s : Store) (r : RevisionRecord) :
    (s.put_revision r).faults = s.faults := by
  unfold Store.put_revision; split <;> rfl

theorem get_message_put_message_self (s : Store) (r : MessageRecord)
    (hf : (r.chat_id, r.message_id) ∉ s.faults) :
    (s.put_message r).get_message r.chat_id r.message_id = some r := by
  simp [Store.put_message, hf, Store.get_message, List.find?,
    decode_decrypt_encrypt_encode]

theorem list_revisions_put_message (s : Store) (r : MessageRecord) (chat mid : Int) :
    (s.put_message r).list_revisions chat mid = s.list_revisions chat mid := by
  unfold Store.put_message; split <;> rfl

theorem list_revisions_put_revision_self (s : Store) (r : RevisionRecord)
    (hf : (r.chat_id, r.message_id) ∉ s.faults) :
    (s.put_revision r).list_revisions r.chat_id r.message_id =
      s.list_revisions r.chat_id r.message_id ++ [r] := by
  simp [Store.put_revision, hf, Store.list_revisions, List.filter_append,
    List.filterMap_append, decode_decrypt_encrypt_encode]

theorem get_deletion_put_message (s : Store) (r : MessageRecord) (chat mid : Int) :
    (s.put_message r).get_deletion chat mid = s.get_deletion chat mid := by
  unfold Store.put_message; split <;> rfl

theorem get_deletion_put_revision (s : Store) (r : RevisionRecord) (chat mid : Int) :
    (s.put_revision r).get_deletion chat mid = s.get_deletion chat mid := by
  unfold Store.put_revision; split <;> rfl

theorem put_deletion_ok (s : Store) (r : DeletionRecord)
    (hf : (r.chat_id, r.message_id) ∉ s.faults) :
    s.put_deletion r = .ok { s with delTable := s.delTable ++
      [((r.chat_id, r.message_id), encrypt s.key (encodeRecord (.del r)))] } := by
  simp [Store.put_deletion, hf]

theorem put_deletion_err (s : Store) (r : DeletionRecord)
    (hf : (r.chat_id, r.message_id) ∈ s.faults) :
    s.put_deletion r = .error .unavailable := by
  simp [Store.put_deletion, hf]

theorem put_deletion_ok_fields (s s' : Store) (r : DeletionRecord)
    (h : s.put_deletion r = .ok s') :
    s'.key = s.key ∧ s'.faults = s.faults ∧ s'.msgTable = s.msgTable ∧
      s'.revTable = s.revTable ∧ s'.delTable = s.delTable ++
        [((r.chat_id, r.message_id), encrypt s.key (encodeRecord (.del r)))] := by
  unfold Store.put_deletion at h
  split at h
  · exact absurd h (by simp)
  · cases h; exact ⟨rfl, rfl, rfl, rfl, rfl⟩

theorem get_deletion_put_deletion_other (s s' : Store) (r : DeletionRecord)
    (chat mid : Int) (h : s.put_deletion r = .ok s')
    (hne : (chat, mid) ≠ (r.chat_id, r.message_id)) :
    s'.get_deletion chat mid = s.get_deletion chat mid := by
  obtain ⟨hk, -, -, -, hd⟩ := put_deletion_ok_fields s s' r h
  simp only [Store.get_deletion, hk, hd, List.find?_append]
  cases hfind : s.delTable.find? (fun e => e.fst = (chat, mid)) with
  | some e => simp [Option.or]
  | none =>
    simp only [Option.none_or]
    rcases Decidable.em (r.chat_id = chat) with h1 | h1
    · rcases Decidable.em (r.message_id = mid) with h2 | h2
      · exact absurd (by simp [h1, h2] : (chat, mid) = (r.chat_id, r.message_id)) hne
      · simp [h1, h2]
    · simp [h1]

theorem list_deletions_put_deletion_self (s s' : Store) (r : DeletionRecord)
    (h : s.put_deletion r = .ok s') :
    s'.list_deletions r.chat_id = s.list_deletions r.chat_id ++ [r] := by
  obtain ⟨hk, -, -, -, hd⟩ := put_deletion_ok_fields s s' r h
  simp [Store.list_deletions, hk, hd, List.filter_append, List.filterMap_append,
    decode_decrypt_encrypt_encode]

theorem list_deletions_put_deletion_mem (s s' : Store) (r : DeletionRecord)
    (chat : Int) (d : DeletionRecord) (h : s.put_deletion r = .ok s')
    (hmem : d ∈ s.list_deletions chat) : d ∈ s'.list_deletions chat := by
  obtain ⟨hk, -, -, -, hd⟩ := put_deletion_ok_fields s s' r h
  simp only [Store.list_deletions, hk, hd, List.filter_append,
    List.filterMap_append, List.mem_append]
  exact Or.inl hmem

/-! ## Capture and batch lemmas -/

theorem lookup_content_save_message (st : ClientState) (r : MessageRecord)
    (hf : (r.chat_id, r.message_id) ∉ st.store.faults) :
    lookup_content (save_message st r).buffer (save_message st r).store
      r.chat_id r.message_id = some r.content := by
  show lookup_content ((((r.chat_id, r.message_id), r) :: st.buffer).take st.buffer_cap)
    (st.store.put_message r) r.chat_id r.message_id = some r.content
  cases hc : st.buffer_cap with
  | zero =>
    simp [lookup_content, get_message_put_message_self st.store r hf]
  | succ n =>
    simp [lookup_content, List.take_succ_cons, List.find?]

theorem tombstone_one_skip (st : ClientState) (chat mid : Int) (d0 : DeletionRecord)
    (hged : st.store.get_deletion chat mid = some d0) :
    tombstone_one st chat mid = (st, none) := by
  unfold tombstone_one
  rw [hged]

theorem tombstone_one_fail (st : ClientState) (chat mid : Int)
    (hged : st.store.get_deletion chat mid = none)
    (hf : (chat, mid) ∈ st.store.faults) :
    tombstone_one st chat mid = (st, some mid) := by
  unfold tombstone_one
  rw [hged]
  simp only []
  rw [put_deletion_err st.store _ hf]

theorem tombstone_one_ok (st : ClientState) (chat mid : Int)
    (hged : st.store.get_deletion chat mid = none)
    (hf : (chat, mid) ∉ st.store.faults) :
    ∃ s' dd,
      tombstone_one st chat mid = ({ st with store := s' }, none) ∧
      dd.chat_id = chat ∧ dd.message_id = mid ∧
      s'.faults = st.store.faults ∧
      s'.list_deletions chat = st.store.list_deletions chat ++ [dd] ∧
      (∀ mid' : Int, mid' ≠ mid →
        s'.get_deletion chat mid' = st.store.get_deletion chat mid') := by
  have hput := put_deletion_ok st.store
    { chat_id := chat, message_id := mid, deleted_at := st.now,
      last_known_content := (lookup_content st.buffer st.store chat mid).getD .unavailable,
      batch_id := st.next_batch } hf
  refine ⟨{ st.store with delTable := st.store.delTable ++
      [((chat, mid), encrypt st.store.key (encodeRecord (.del
        { chat_id := chat, message_id := mid, deleted_at := st.now,
          last_known_content :=
            (lookup_content st.buffer st.store chat mid).getD .unavailable,
          batch_id := st.next_batch })))] },
    { chat_id := chat, message_id := mid, deleted_at := st.now,
      last_known_content :=
        (lookup_content st.buffer st.store chat mid).getD .unavailable,
      batch_id := st.next_batch }, ?_, rfl, rfl, rfl, ?_, ?_⟩
  · unfold tombstone_one
    rw [hged]
    simp only []
    rw [hput]
  · exact list_deletions_put_deletion_self st.store _ _ hput
  · intro mid' hne
    refine get_deletion_put_deletion_other st.store _ _ chat mid' hput ?_
    simp [Prod.ext_iff, hne]

theorem process_batch_spec (chat : Int) :
    ∀ (mids : List Int) (st : ClientState),
    (∀ mid ∈ mids, st.store.get_deletion chat mid = none ∨
      ((chat, mid) ∉ st.store.faults ∧
        ∃ d ∈ st.store.list_deletions chat, d.message_id = mid)) →
    (process_batch st chat mids).fst.store.faults = st.store.faults ∧
    (∀ d ∈ st.store.list_deletions chat,
      d ∈ (process_batch st chat mids).fst.store.list_deletions chat) ∧
    (process_batch st chat mids).snd =
      mids.filter (fun mid => decide ((chat, mid) ∈ st.store.faults)) ∧
    (∀ mid ∈ mids, (chat, mid) ∉ st.store.faults →
      ∃ d ∈ (process_batch st chat mids).fst.store.list_deletions chat,
        d.message_id = mid) := by
  intro mids
  induction mids with
  | nil =>
    intro st hinv
    refine ⟨rfl, fun d hd => hd, rfl, ?_⟩
    intro mid hmid
    exact absurd hmid (List.not_mem_nil mid)
  | cons mid rest ih =>
    intro st hinv
    by_cases hf : (chat, mid) ∈ st.store.faults
    · have hged : st.store.get_deletion chat mid = none := by
        rcases hinv mid (List.mem_cons_self mid rest) with h | ⟨hnf, _⟩
        · exact h
        · exact absurd hf hnf
      have hstep : process_batch st chat (mid :: rest) =
          ((process_batch st chat rest).fst, mid :: (process_batch st chat rest).snd) := by
        simp only [process_batch]
        rw [tombstone_one_fail st chat mid hged hf]
      obtain ⟨ihf, ihmono, ihsnd, ihmem⟩ :=
        ih st (fun m hm => hinv m (List.mem_cons_of_mem _ hm))
      rw [hstep]
      refine ⟨ihf, ihmono, ?_, ?_⟩
      · simp only [List.filter_cons, hf, decide_True, if_true, cond_true]
        rw [ihsnd]
      · intro mid' hmid' hnf
        rcases List.mem_cons.mp hmid' with rfl | hmem
        · exact absurd hf hnf
        · exact ihmem mid' hmem hnf
    · by_cases hged : st.store.get_deletion chat mid = none
      · obtain ⟨s', dd, htomb, hddc, hddm, hfaults, hlist, hother⟩ :=
          tombstone_one_ok st chat mid hged hf
        have hstep : process_batch st chat (mid :: rest) =
            ((process_batch { st with store := s' } chat rest).fst,
              (process_batch { st with store := s' } chat rest).snd) := by
          simp only [process_batch]
          rw [htomb]
        have hinv' : ∀ m ∈ rest,
            ({ st with store := s' } : ClientState).store.get_deletion chat m = none ∨
            ((chat, m) ∉ ({ st with store := s' } : ClientState).store.faults ∧
              ∃ d ∈ ({ st with store := s' } : ClientState).store.list_deletions chat,
                d.message_id = m) := by
          intro m hm
          rcases eq_or_ne m mid with rfl | hne
          · right
            refine ⟨?_, dd, ?_, hddm⟩
            · show (chat, m) ∉ s'.faults
              rw [hfaults]
              exact hf
            · show dd ∈ s'.list_deletions chat
              rw [hlist]
              exact List.mem_append_right _ (List.mem_singleton.mpr rfl)
          · rcases hinv m (List.mem_cons_of_mem _ hm) with h | ⟨hnf, d0, hd0, hd0m⟩
            · left
              show s'.get_deletion chat m = none
              rw [hother m hne]
              exact h
            · right
              refine ⟨?_, d0, ?_, hd0m⟩
              · show (chat, m) ∉ s'.faults
                rw [hfaults]
                exact hnf
              · show d0 ∈ s'.list_deletions chat
                rw [hlist]
                exact List.mem_append_left _ hd0
        obtain ⟨ihf, ihmono, ihsnd, ihmem⟩ := ih { st with store := s' } hinv'
        rw [hstep]
        refine ⟨?_, ?_, ?_, ?_⟩
        · exact ihf.trans hfaults
        · intro d hd
          refine ihmono d ?_
          show d ∈ s'.list_deletions chat
          rw [hlist]
          exact List.mem_append_left _ hd
        · have : (process_batch { st with store := s' } chat rest).snd =
              rest.filter (fun m => decide ((chat, m) ∈ st.store.faults)) := by
            rw [ihsnd]
            congr 1
            funext m
            show decide ((chat, m) ∈ s'.faults) = decide ((chat, m) ∈ st.store.faults)
            rw [hfaults]
          rw [this]
          simp [List.filter_cons, hf]
        · intro mid' hmid' hnf
          rcases List.mem_cons.mp hmid' with rfl | hmem
          · refine ⟨dd, ihmono dd ?_, hddm⟩
            show dd ∈ s'.list_deletions chat
            rw [hlist]
            exact List.mem_append_right _ (List.mem_singleton.mpr rfl)
          · refine ihmem mid' hmem ?_
            show (chat, mid') ∉ s'.faults
            rw [hfaults]
            exact hnf
      · obtain ⟨d0, hd0⟩ : ∃ d0, st.store.get_deletion chat mid = some d0 :=
          Option.ne_none_iff_exists'.mp hged
        have hstep : process_batch st chat (mid :: rest) =
            ((process_batch st chat rest).fst, (process_batch st chat rest).snd) := by
          simp only [process_batch]
          rw [tombstone_one_skip st chat mid d0 hd0]
        have hex : ∃ d ∈ st.store.list_deletions chat, d.message_id = mid := by
          rcases hinv mid (List.mem_cons_self mid rest) with h | ⟨-, hx⟩
          · exact absurd h hged
          · exact hx
        obtain ⟨ihf, ihmono, ihsnd, ihmem⟩ :=
          ih st (fun m hm => hinv m (List.mem_cons_of_mem _ hm))
        rw [hstep]
        refine ⟨ihf, ihmono, ?_, ?_⟩
        · rw [ihsnd]
          simp [List.filter_cons, hf]
        · intro mid' hmid' hnf
          rcases List.mem_cons.mp hmid' with rfl | hmem
          · obtain ⟨d1, hd1, hd1m⟩ := hex
            exact ⟨d1, ihmono d1 hd1, hd1m⟩
          · exact ihmem mid' hmem hnf

/-! ## Edit-history lemmas -/

theorem list_revisions_put_revision_at (s : Store) (chat mid : Int)
    (r : RevisionRecord) (hc : r.chat_id = chat) (hm : r.message_id = mid)
    (hf : (chat, mid) ∉ s.faults) :
    (s.put_revision r).list_revisions chat mid =
      s.list_revisions chat mid ++ [r] := by
  subst hc
  subst hm
  exact list_revisions_put_revision_self s r hf

theorem foldr_max_fixed (l : List Nat) (n : Nat) (h : ∀ x ∈ l, x ≤ n) :
    l.foldr max n = n := by
  induction l with
  | nil => rfl
  | cons a l ih =>
    simp only [List.foldr_cons]
    rw [ih (fun x hx => h x (List.mem_cons_of_mem a hx))]
    exact Nat.max_eq_right (h a (List.mem_cons_self a l))

theorem maxSeq_of_range (rs : List RevisionRecord) (k : Nat)
    (hrange : rs.map (fun r => r.revision_seq) = List.range rs.length)
    (hk : rs.length = k + 1) :
    maxSeq rs = k := by
  unfold maxSeq
  rw [hrange, hk, List.range_succ k, List.foldr_append]
  simp only [List.foldr_cons, List.foldr_nil, Nat.max_zero]
  exact foldr_max_fixed (List.range k) k
    (fun x hx => Nat.le_of_lt (List.mem_range.mp hx))

theorem edit_store_append (buffer : List ((Int × Int) × MessageRecord))
    (server : List ((Int × Int) × Content)) (s : Store) (chat mid : Int)
    (nc : Content) (ts : Int) (rs : List RevisionRecord) (k : Nat)
    (hrs : s.list_revisions chat mid = rs)
    (hk : rs.length = k + 1)
    (hrange : rs.map (fun r => r.revision_seq) = List.range rs.length)
    (hf : (chat, mid) ∉ s.faults) :
    (edit_store buffer server s chat mid nc ts).list_revisions chat mid =
      rs ++ [{ chat_id := chat, message_id := mid, revision_seq := k + 1,
               content := nc, edited_at := ts }] ∧
    (edit_store buffer server s chat mid nc ts).faults = s.faults := by
  have hne : rs.isEmpty = false := by
    cases rs
    · simp at hk
    · rfl
  have hmax : maxSeq rs = k := maxSeq_of_range rs k hrange hk
  have hself := list_revisions_put_revision_at s chat mid
    { chat_id := chat, message_id := mid, revision_seq := k + 1,
      content := nc, edited_at := ts } rfl rfl hf
  unfold edit_store
  simp only [hrs, hne, Bool.false_eq_true, if_false, hmax]
  split
  · constructor
    · rw [list_revisions_put_message, hself, hrs]
    · rw [put_message_faults, put_revision_faults]
  · constructor
    · rw [hself, hrs]
    · rw [put_revision_faults]

theorem edit_store_first (buffer : List ((Int × Int) × MessageRecord))
    (server : List ((Int × Int) × Content)) (s : Store) (chat mid : Int)
    (nc : Content) (ts : Int)
    (h0 : s.list_revisions chat mid = [])
    (hf : (chat, mid) ∉ s.faults) :
    (edit_store buffer server s chat mid nc ts).list_revisions chat mid =
      [{ chat_id := chat, message_id := mid, revision_seq := 0,
         content := backfill_origin buffer s server chat mid, edited_at := ts },
       { chat_id := chat, message_id := mid, revision_seq := 1,
         content := nc, edited_at := ts }] ∧
    (edit_store buffer server s chat mid nc ts).faults = s.faults := by
  have hrev0 := list_revisions_put_revision_at s chat mid
    { chat_id := chat, message_id := mid, revision_seq := 0,
      content := backfill_origin buffer s server chat mid, edited_at := ts }
    rfl rfl hf
  rw [h0, List.nil_append] at hrev0
  have hf1 : (chat, mid) ∉ (s.put_revision
      { chat_id := chat, message_id := mid, revision_seq := 0,
        content := backfill_origin buffer s server chat mid,
        edited_at := ts }).faults := by
    rw [put_revision_faults]
    exact hf
  have hrev1 := list_revisions_put_revision_at (s.put_revision
      { chat_id := chat, message_id := mid, revision_seq := 0,
        content := backfill_origin buffer s server chat mid, edited_at := ts })
    chat mid
    { chat_id := chat, message_id := mid, revision_seq := 1,
      content := nc, edited_at := ts } rfl rfl hf1
  rw [hrev0] at hrev1
  unfold edit_store
  simp only [h0, List.isEmpty_nil, if_true, hrev0]
  have hm0 : maxSeq [({ chat_id := chat, message_id := mid, revision_seq := 0,
                        content := backfill_origin buffer s server chat mid,
                        edited_at := ts } : RevisionRecord)] = 0 := rfl
  simp only [hm0, Nat.zero_add]
  split
  · constructor
    · rw [list_revisions_put_message, hrev1]
      rfl
    · rw [put_message_faults, put_revision_faults, put_revision_faults]
  · constructor
    · rw [hrev1]
      rfl
    · rw [put_revision_faults, put_revision_faults]

theorem foldEdits_list_revisions (chat mid : Int) (es : List (Content × Int)) :
    ∀ (st : ClientState) (rs : List RevisionRecord) (k : Nat),
    st.store.list_revisions chat mid = rs →
    rs.length = k + 1 →
    rs.map (fun r => r.revision_seq) = List.range rs.length →
    (chat, mid) ∉ st.store.faults →
    (foldEdits st chat mid es).store.list_revisions chat mid =
      rs ++ editRevs chat mid (k + 1) es := by
  induction es with
  | nil =>
    intro st rs k hrs _ _ _
    simpa [foldEdits, editRevs] using hrs
  | cons e rest ih =>
    obtain ⟨c, t⟩ := e
    intro st rs k hrs hk hrange hf
    obtain ⟨hlist, hfaults⟩ := edit_store_append st.buffer st.server st.store
      chat mid c t rs k hrs hk hrange hf
    have hfold : foldEdits st chat mid ((c, t) :: rest) =
        foldEdits (handle_edit_message st chat mid c t) chat mid rest := rfl
    rw [hfold]
    have hlist' : (handle_edit_message st chat mid c t).store.list_revisions chat mid =
        rs ++ [{ chat_id := chat, message_id := mid, revision_seq := k + 1,
                 content := c, edited_at := t }] := hlist
    have hres := ih (handle_edit_message st chat mid c t)
      (rs ++ [{ chat_id := chat, message_id := mid, revision_seq := k + 1,
                content := c, edited_at := t }]) (k + 1) hlist'
      (by simp [hk]) ?_ ?_
    · rw [hres, editRevs]
      simp [List.append_assoc]
    · simp [hrange, hk, List.range_succ]
    · show (chat, mid) ∉ (edit_store st.buffer st.server st.store chat mid c t).faults
      rw [hfaults]
      exact hf

theorem editRevs_length (chat mid : Int) (es : List (Content × Int)) :
    ∀ k, (editRevs chat mid k es).length = es.length := by
  induction es with
  | nil => intro k; rfl
  | cons e rest ih =>
    obtain ⟨c, t⟩ := e
    intro k
    simp [editRevs, ih (k + 1)]

theorem editRevs_map_content (chat mid : Int) (es : List (Content × Int)) :
    ∀ k, (editRevs chat mid k es).map (fun r => r.content) = es.map Prod.fst := by
  induction es with
  | nil => intro k; rfl
  | cons e rest ih =>
    obtain ⟨c, t⟩ := e
    intro k
    simp [editRevs, ih (k + 1)]

theorem editRevs_map_seq (chat mid : Int) (es : List (Content × Int)) :
    ∀ k, (editRevs chat mid k es).map (fun r => r.revision_seq) =
      List.range' k es.length := by
  induction es with
  | nil => intro k; rfl
  | cons e rest ih =>
    obtain ⟨c, t⟩ := e
    intro k
    simp [editRevs, ih (k + 1), List.range'_succ]

/-! ## Dispatcher lane lemmas -/

theorem laneOf_ident (events : List Event) (id : Int × Int) (e : Event)
    (h : e ∈ laneOf events id) : e.ident = id := by
  have := List.mem_filter.mp h
  simpa using this.2

theorem runSched_inv (events : List Event) (sched : List (Int × Int)) :
    ∀ (s : DispatchState),
    (∀ id, s.processed.filter (fun e => e.ident = id) ++ s.remaining id =
      laneOf events id) →
    ∀ id, (runSched s sched).processed.filter (fun e => e.ident = id) ++
      (runSched s sched).remaining id = laneOf events id := by
  induction sched with
  | nil => intro s h id; exact h id
  | cons j rest ih =>
    intro s h id
    refine ih (dispatchStep s j) ?_ id
    intro id'
    unfold dispatchStep
    cases hrem : s.remaining j with
    | nil => exact h id'
    | cons e es =>
      have heid : e.ident = j := by
        refine laneOf_ident events j e ?_
        rw [← h j]
        refine List.mem_append_right _ ?_
        rw [hrem]
        exact List.mem_cons_self e es
      by_cases hij : id' = j
      · subst hij
        have hj := h id'
        rw [hrem] at hj
        simp only [List.filter_append, List.filter_cons, List.filter_nil, heid]
        simp only [decide_True, List.append_assoc, if_pos rfl]
        simpa using hj
      · have hj := h id'
        simp only [List.filter_append, List.filter_cons, List.filter_nil]
        have hne : ¬ e.ident = id' := by
          rw [heid]
          intro hh
          exact hij hh.symm
        simp only [decide_eq_false hne, if_neg hij, List.append_nil, cond_false]
        simpa using hj

/-! ## Claim theorems -/

/-- C1: with ghost mode enabled, `send_message` passes a true
`disable_notification` flag to the transport for every caller-supplied
silent value; with ghost mode disabled, the caller-supplied flag passes
through unchanged. -/
theorem ghost_mode_forces_silent_send (chat : Int) (text : String) (silent : Bool) :
    (send_message true chat text silent).disable_notification = true ∧
    (send_message false chat text silent).disable_notification = silent := by
  cases silent <;> exact ⟨rfl, rfl⟩

/-- C4: each of the ghost filter's three suppression axes is governed by its
own flag alone — its decision equals its flag, and changing the other two
flags never changes it. -/
theorem ghost_axes_independent (o t r o' t' r' : Bool) :
    suppresses ⟨o, t, r⟩ .online = o ∧
    suppresses ⟨o, t, r⟩ .typing = t ∧
    suppresses ⟨o, t, r⟩ .read = r ∧
    suppresses ⟨o, t, r⟩ .online = suppresses ⟨o, t', r'⟩ .online ∧
    suppresses ⟨o, t, r⟩ .typing = suppresses ⟨o', t, r'⟩ .typing ∧
    suppresses ⟨o, t, r⟩ .read = suppresses ⟨o', t', r⟩ .read :=
  ⟨rfl, rfl, rfl, rfl, rfl, rfl⟩

/-- C9 counterexample: `_extract_text` is not total on dict-shaped messages
— when the message's `content` value is not itself a dict (here the integer
42), `content.get('@type')` raises `AttributeError` instead of returning a
string. -/
theorem extract_text_raises_on_nondict_content :
    extract_text [("content", .pyInt 42)] = .error .attributeError := rfl

/-- C9 (amended): for every dict message whose `content` value (after the
`.get('content', {})` default) is a dict, `_extract_text` returns the
bracketed content `@type` (with `[Unknown]` when no `@type` key exists)
when the `@type` is not `messageText`; and when it is `messageText` and the
content's `text` value (after its default) is a dict, it returns that
dict's nested `text` value, the empty string when absent. -/
theorem extract_text_spec (message : List (String × PyVal))
    (c : List (String × PyVal))
    (hc : (dictGet message "content").getD (.pyDict []) = .pyDict c) :
    (isStrVal (dictGet c "@type") "messageText" = false →
      extract_text message = .ok (.pyStr
        ("[" ++ pyToStr ((dictGet c "@type").getD (.pyStr "Unknown")) ++ "]"))) ∧
    (∀ t : List (String × PyVal),
      isStrVal (dictGet c "@type") "messageText" = true →
      (dictGet c "text").getD (.pyDict []) = .pyDict t →
      extract_text message = .ok ((dictGet t "text").getD (.pyStr ""))) := by
  constructor
  · intro hty
    simp [extract_text, hc, hty]
  · intro t hty htext
    simp [extract_text, hc, hty, htext]

/-- C9 witness: the amended description evaluated on a concrete
`messageText` payload. -/
theorem extract_text_spec_witness :
    extract_text [("content", .pyDict [("@type", .pyStr "messageText"),
      ("text", .pyDict [("text", .pyStr "hi")])])] = .ok (.pyStr "hi") :=
  (extract_text_spec
    [("content", .pyDict [("@type", .pyStr "messageText"),
      ("text", .pyDict [("text", .pyStr "hi")])])]
    [("@type", .pyStr "messageText"), ("text", .pyDict [("text", .pyStr "hi")])]
    rfl).2 [("text", .pyStr "hi")] rfl rfl

/-- C5: the query operations are total with typed outcomes — the edit
history query answers `NotFound` exactly when the identity has no stored
revisions, any `ok` answer is the stored revision list, and no other error
outcome is possible. -/
theorem query_outcomes (st : ClientState) (chat mid : Int) :
    (get_message_history st chat mid = .error .notFound ↔
      st.store.list_revisions chat mid = []) ∧
    (∀ revs, get_message_history st chat mid = .ok revs →
      revs = st.store.list_revisions chat mid) ∧
    (get_message_history st chat mid = .error .notFound ∨
      ∃ revs, get_message_history st chat mid = .ok revs) := by
  unfold get_message_history
  by_cases h : (st.store.list_revisions chat mid).isEmpty
  · rw [if_pos h]
    refine ⟨⟨fun _ => List.isEmpty_iff.mp h, fun _ => rfl⟩, ?_, Or.inl rfl⟩
    intro revs hrevs
    exact absurd hrevs (by simp)
  · rw [if_neg h]
    refine ⟨⟨fun hc => absurd hc (by simp), ?_⟩, ?_, Or.inr ⟨_, rfl⟩⟩
    · intro he
      exact absurd (List.isEmpty_iff.mpr he) h
    · intro revs hrevs
      cases hrevs
      rfl

/-- C5 witness: on a fresh client, the history query for an unseen identity
is the typed `NotFound` answer, not a crash. -/
theorem query_outcomes_witness :
    get_message_history sampleState 1 2 = .error .notFound :=
  (query_outcomes sampleState 1 2).1.mpr rfl

/-- C7: encryption followed by decryption is the identity on stored
records — a message, revision, or deletion record written through the
Store and read back has exactly the original fields. -/
theorem store_roundtrip (s : Store) (m : MessageRecord) (rv : RevisionRecord)
    (d : DeletionRecord)
    (hm : (m.chat_id, m.message_id) ∉ s.faults)
    (hrv : (rv.chat_id, rv.message_id) ∉ s.faults) :
    (s.put_message m).get_message m.chat_id m.message_id = some m ∧
    rv ∈ (s.put_revision rv).list_revisions rv.chat_id rv.message_id ∧
    (∀ s', s.put_deletion d = .ok s' → d ∈ s'.list_deletions d.chat_id) := by
  refine ⟨get_message_put_message_self s m hm, ?_, ?_⟩
  · rw [list_revisions_put_revision_self s rv hrv]
    simp
  · intro s' h
    rw [list_deletions_put_deletion_self s s' d h]
    simp

/-- C7 witness: the round trip evaluated on concrete records over the
sample Store. -/
theorem store_roundtrip_witness :
    (sampleStore.put_message sampleMsg).get_message 7 101 = some sampleMsg :=
  (store_roundtrip sampleStore sampleMsg
    ⟨7, 101, 0, .text "v0", 5⟩ ⟨7, 101, 9, .text "gone", 0⟩
    (by decide) (by decide)).1

/-- C10: with `save_deleted` disabled, new-message and delete events leave
the client state untouched (no anti-delete capture, no deletion-record
persistence, no reported failures), while an edit event changes the Store
exactly as it would with the flag enabled. -/
theorem save_deleted_flag_frame (st : ClientState) (u : Update) (chat : Int)
    (mids : List Int) (mid : Int) (nc : Content) (ts : Int)
    (hsd : st.save_deleted = false) :
    handle_new_message st u = st ∧
    handle_delete_message st chat mids = (st, []) ∧
    (handle_edit_message { st with save_deleted := false } chat mid nc ts).store =
      (handle_edit_message { st with save_deleted := true } chat mid nc ts).store := by
  refine ⟨?_, ?_, rfl⟩
  · cases u with
    | newMessage m => simp [handle_new_message, hsd]
    | otherUpdate => rfl
  · simp [handle_delete_message, hsd]

/-- C10 witness: the frame property evaluated on the sample client with
anti-delete disabled. -/
theorem save_deleted_flag_frame_witness :
    handle_new_message noSaveState (.newMessage sampleMsg) = noSaveState ∧
    handle_delete_message noSaveState 7 [101] = (noSaveState, []) :=
  ⟨(save_deleted_flag_frame noSaveState (.newMessage sampleMsg) 7 [101] 101
      (.text "x") 0 rfl).1,
    (save_deleted_flag_frame noSaveState (.newMessage sampleMsg) 7 [101] 101
      (.text "x") 0 rfl).2.1⟩

/-- C8: under the per-identity lane Dispatcher, every schedule of worker
steps processes the events of one message identity as a prefix of that
identity's arrival-order lane — so a delete is never evaluated before the
new-message event for the same identity, and edits of one message are
never reordered, while lanes of different identities interleave freely. -/
theorem dispatcher_per_identity_order (events : List Event)
    (sched : List (Int × Int)) (id : Int × Int) :
    (runSched (initDispatch events) sched).processed.filter
        (fun e => e.ident = id) ++
      (runSched (initDispatch events) sched).remaining id = laneOf events id := by
  refine runSched_inv events sched (initDispatch events) ?_ id
  intro id'
  simp [initDispatch]

/-- C2: after a NewMessage for an identity followed by a MessagesDeleted
batch referencing it, `get_deleted_messages` returns a Deletion Record for
that identity whose `last_known_content` is the NewMessage content —
provided anti-delete is enabled, the identity was not already tombstoned,
and its Store writes are not failing. -/
theorem antidelete_captures_deleted_content (st : ClientState) (m : MessageRecord)
    (hsd : st.save_deleted = true)
    (hnd : st.store.get_deletion m.chat_id m.message_id = none)
    (hf : (m.chat_id, m.message_id) ∉ st.store.faults) :
    ∃ d ∈ get_deleted_messages
        (handle_delete_message (handle_new_message st (.newMessage m))
          m.chat_id [m.message_id]).fst m.chat_id,
      d.chat_id = m.chat_id ∧ d.message_id = m.message_id ∧
        d.last_known_content = m.content := by
  have h1 : handle_new_message st (.newMessage m) = save_message st m := by
    simp [handle_new_message, hsd]
  rw [h1]
  set st1 := save_message st m with hst1
  have hfam : (m.chat_id, m.message_id) ∉ st1.store.faults := by
    show (m.chat_id, m.message_id) ∉ (st.store.put_message m).faults
    rw [put_message_faults]
    exact hf
  have hged : st1.store.get_deletion m.chat_id m.message_id = none := by
    show (st.store.put_message m).get_deletion m.chat_id m.message_id = none
    rw [get_deletion_put_message]
    exact hnd
  have hlk := lookup_content_save_message st m hf
  set d : DeletionRecord :=
    { chat_id := m.chat_id, message_id := m.message_id, deleted_at := st1.now,
      last_known_content := m.content, batch_id := st1.next_batch } with hdd
  have hput : st1.store.put_deletion d =
      .ok { st1.store with delTable := st1.store.delTable ++
        [((m.chat_id, m.message_id), encrypt st1.store.key (encodeRecord (.del d)))] } :=
    put_deletion_ok st1.store d hfam
  set s' : Store :=
    { st1.store with delTable := st1.store.delTable ++
      [((m.chat_id, m.message_id), encrypt st1.store.key (encodeRecord (.del d)))] }
    with hs'
  have htomb : tombstone_one st1 m.chat_id m.message_id = ({ st1 with store := s' }, none) := by
    unfold tombstone_one
    rw [hged]
    simp only [hlk, Option.getD_some]
    rw [hput]
  have hbatch : process_batch st1 m.chat_id [m.message_id] =
      ({ st1 with store := s' }, []) := by
    unfold process_batch
    rw [htomb]
    rfl
  have hsd1 : st1.save_deleted = true := hsd
  have hfst : (handle_delete_message st1 m.chat_id [m.message_id]).fst.store = s' := by
    unfold handle_delete_message
    rw [if_pos hsd1, hbatch]
  have hlist : get_deleted_messages
      (handle_delete_message st1 m.chat_id [m.message_id]).fst m.chat_id =
      st1.store.list_deletions m.chat_id ++ [d] := by
    unfold get_deleted_messages
    rw [hfst]
    exact list_deletions_put_deletion_self st1.store s' d hput
  rw [hlist]
  exact ⟨d, List.mem_append_right _ (List.mem_singleton.mpr rfl), rfl, rfl, rfl⟩

/-- C2 witness: the capture property evaluated on the sample client and the
sample message. -/
theorem antidelete_captures_deleted_content_witness :
    ∃ d ∈ get_deleted_messages
        (handle_delete_message (handle_new_message sampleState (.newMessage sampleMsg))
          7 [101]).fst 7,
      d.chat_id = 7 ∧ d.message_id = 101 ∧ d.last_known_content = .text "hello" :=
  antidelete_captures_deleted_content sampleState sampleMsg rfl rfl (by decide)

/-- C6: identities in a deletion batch are processed independently — every
identity whose Store write is not failing gets a Deletion Record even when
other identities in the batch fail, and the reported failures are exactly
the faulted identities of the batch, in batch order. -/
theorem batch_deletion_failures_independent (st : ClientState) (chat : Int)
    (mids : List Int) (hsd : st.save_deleted = true)
    (hnd : ∀ mid ∈ mids, st.store.get_deletion chat mid = none) :
    (∀ mid ∈ mids, (chat, mid) ∉ st.store.faults →
      ∃ d ∈ get_deleted_messages (handle_delete_message st chat mids).fst chat,
        d.message_id = mid) ∧
    (handle_delete_message st chat mids).snd =
      mids.filter (fun mid => decide ((chat, mid) ∈ st.store.faults)) := by
  have hspec := process_batch_spec chat mids st (fun m hm => Or.inl (hnd m hm))
  have hfst : (handle_delete_message st chat mids).fst.store =
      (process_batch st chat mids).fst.store := by
    unfold handle_delete_message
    rw [if_pos hsd]
  have hsnd : (handle_delete_message st chat mids).snd =
      (process_batch st chat mids).snd := by
    unfold handle_delete_message
    rw [if_pos hsd]
  refine ⟨?_, by rw [hsnd]; exact hspec.2.2.1⟩
  intro mid hm hnf
  have hx := hspec.2.2.2 mid hm hnf
  unfold get_deleted_messages
  rw [hfst]
  exact hx

/-- C6 witness: the batch [101, 102, 103] in chat 7 where identity
`(7, 102)`'s Store write fails — 102 alone is reported, and 101 and 103
still get Deletion Records. -/
theorem batch_deletion_failures_independent_witness :
    (handle_delete_message faultyState 7 [101, 102, 103]).snd = [102] ∧
    (∀ mid ∈ ([101, 102, 103] : List Int), (7, mid) ∉ faultyState.store.faults →
      ∃ d ∈ get_deleted_messages
          (handle_delete_message faultyState 7 [101, 102, 103]).fst 7,
        d.message_id = mid) :=
  ⟨(batch_deletion_failures_independent faultyState 7 [101, 102, 103] rfl
      (by decide)).2,
    (batch_deletion_failures_independent faultyState 7 [101, 102, 103] rfl
      (by decide)).1⟩

/-- C3: for a message with no prior revisions, delivering a sequence of
N ≥ 1 edit events yields an edit history of exactly N+1 revisions — the
lazily synthesized original plus one per edit — with strictly increasing
revision_seq, and the content of each appended revision equals the
new_content of the corresponding edit event, in event order. -/
theorem edit_history_tracks_revisions (st : ClientState) (chat mid : Int)
    (edits : List (Content × Int)) (hne : edits ≠ [])
    (h0 : st.store.list_revisions chat mid = [])
    (hf : (chat, mid) ∉ st.store.faults) :
    ∃ revs, get_message_history (foldEdits st chat mid edits) chat mid = .ok revs ∧
      revs.length = edits.length + 1 ∧
      revs.map (fun r => r.revision_seq) = List.range (edits.length + 1) ∧
      (revs.map (fun r => r.revision_seq)).Pairwise (· < ·) ∧
      (revs.map (fun r => r.content)).drop 1 = edits.map Prod.fst := by
  obtain ⟨⟨c1, t1⟩, rest, rfl⟩ : ∃ e rest, edits = e :: rest := by
    cases edits with
    | nil => exact absurd rfl hne
    | cons e rest => exact ⟨e, rest, rfl⟩
  obtain ⟨hlist1, hfaults1⟩ := edit_store_first st.buffer st.server st.store
    chat mid c1 t1 h0 hf
  have hst1 : (handle_edit_message st chat mid c1 t1).store.list_revisions chat mid =
      [{ chat_id := chat, message_id := mid, revision_seq := 0,
         content := backfill_origin st.buffer st.store st.server chat mid,
         edited_at := t1 },
       { chat_id := chat, message_id := mid, revision_seq := 1,
         content := c1, edited_at := t1 }] := hlist1
  have hf1 : (chat, mid) ∉ (handle_edit_message st chat mid c1 t1).store.faults := by
    show (chat, mid) ∉ (edit_store st.buffer st.server st.store chat mid c1 t1).faults
    rw [hfaults1]
    exact hf
  have hfold := foldEdits_list_revisions chat mid rest
    (handle_edit_message st chat mid c1 t1)
    [{ chat_id := chat, message_id := mid, revision_seq := 0,
       content := backfill_origin st.buffer st.store st.server chat mid,
       edited_at := t1 },
     { chat_id := chat, message_id := mid, revision_seq := 1,
       content := c1, edited_at := t1 }] 1 hst1 (by simp) rfl hf1
  have hsteps : foldEdits st chat mid ((c1, t1) :: rest) =
      foldEdits (handle_edit_message st chat mid c1 t1) chat mid rest := rfl
  have hshape : ([{ chat_id := chat, message_id := mid, revision_seq := 0,
                    content := backfill_origin st.buffer st.store st.server chat mid,
                    edited_at := t1 },
                  { chat_id := chat, message_id := mid, revision_seq := 1,
                    content := c1, edited_at := t1 }] : List RevisionRecord) ++
        editRevs chat mid (1 + 1) rest =
      editRevs chat mid 0
        ((backfill_origin st.buffer st.store st.server chat mid, t1) ::
          (c1, t1) :: rest) := rfl
  have hfinal : (foldEdits st chat mid ((c1, t1) :: rest)).store.list_revisions
      chat mid = editRevs chat mid 0
        ((backfill_origin st.buffer st.store st.server chat mid, t1) ::
          (c1, t1) :: rest) := by
    rw [hsteps, hfold, hshape]
  refine ⟨editRevs chat mid 0
      ((backfill_origin st.buffer st.store st.server chat mid, t1) ::
        (c1, t1) :: rest), ?_, ?_, ?_, ?_, ?_⟩
  · unfold get_message_history
    rw [hfinal]
    simp [editRevs]
  · simp [editRevs_length]
  · rw [editRevs_map_seq, List.range_eq_range']
    simp
  · rw [editRevs_map_seq]
    have : List.range' 0 (((backfill_origin st.buffer st.store st.server chat mid,
        t1) :: (c1, t1) :: rest).length) =
        List.range (((backfill_origin st.buffer st.store st.server chat mid,
          t1) :: (c1, t1) :: rest).length) :=
      (List.range_eq_range' _).symm
    rw [this]
    exact List.pairwise_lt_range _
  · rw [editRevs_map_content]
    simp

/-- C3 witness: two edits on a freshly observed identity produce exactly
three revisions with seq 0, 1, 2 and the two edit contents in order. -/
theorem edit_history_tracks_revisions_witness :
    ∃ revs, get_message_history
        (foldEdits sampleState 5 9 [(Content.text "v1", 10), (Content.text "v2", 20)])
        5 9 = .ok revs ∧
      revs.length = 3 ∧
      revs.map (fun r => r.revision_seq) = List.range 3 ∧
      (revs.map (fun r => r.revision_seq)).Pairwise (· < ·) ∧
      (revs.map (fun r => r.content)).drop 1 =
        [Content.text "v1", Content.text "v2"] :=
  edit_history_tracks_revisions sampleState 5 9
    [(Content.text "v1", 10), (Content.text "v2", 20)]
    (by simp) rfl (by decide)

end Jirgram
